import Mathlib

/-!
Verification development for the nofx trading fleet.

Part A embeds the resilient invocation layer (`mcp/client.go`): the
configuration record, the single-attempt call `callOnce`, the transient
error classifier `isRetryableError`, the retrying entry point
`CallWithMessages`, and the explicit-configuration path
`CallWithMessagesWithConfig`.

Part B embeds the reconciliation pass (`api/server.go`,
`handleAdminReload`) over a fleet registry.  The registry itself
(`nofx/manager`) is not part of the available sources, so its operations
are modelled from the specification of the fleet registry contract.

The HTTP transport and JSON decoding are not computable inside the
embedding; each exchange with the provider is abstracted as an oracle
value of type `ProviderOutcome` describing how the exchange ended, and
`callOnce` maps each outcome to the error string the source produces for
it.  Likewise, environmental failure of a registry operation is
abstracted as a Boolean oracle on identifiers.
-/

set_option maxHeartbeats 1000000

namespace NofxSpec

/-- AI provider selector (source: `mcp/client.go`, `type Provider string`). -/
abbrev Provider := String

def ProviderDeepSeek : Provider := "deepseek"

def ProviderQwen : Provider := "qwen"

def ProviderCustom : Provider := "custom"

/-- AI API configuration (source: `mcp/client.go`, `struct Config`).
`time.Duration` is carried as a number of seconds; it is never computed
with in the embedded paths. -/
structure Config where
  provider : Provider
  apiKey : String
  secretKey : String
  baseURL : String
  model : String
  timeoutSeconds : Nat
deriving DecidableEq

/-- One entry of the `messages` array built by `callOnce`. -/
structure ChatMessage where
  role : String
  content : String
deriving DecidableEq

/-- The fixed-shape request body serialized by `callOnce`
(`model`, `messages`, `temperature: 0.5`, `max_tokens: 2000`).
The float literal `0.5` is carried as the rational `1/2`; it is only
stored, never computed with. -/
structure RequestBody where
  model : String
  messages : List ChatMessage
  temperature : Rat
  maxTokens : Nat
deriving DecidableEq

/-- Message list construction in `callOnce`: an optional system message
followed by the user message. -/
def buildMessages (systemPrompt userPrompt : String) : List ChatMessage :=
  (if systemPrompt == "" then [] else [⟨"system", systemPrompt⟩]) ++ [⟨"user", userPrompt⟩]

/-- The request body assembled by `callOnce` from the configuration and
the prompts. -/
def buildRequestBody (cfg : Config) (systemPrompt userPrompt : String) : RequestBody :=
  ⟨cfg.model, buildMessages systemPrompt userPrompt, (1 : Rat) / 2, 2000⟩

/-- Oracle describing how one HTTP exchange with the provider ended.
Each constructor corresponds to one failure exit of `callOnce`
(transport failure in `client.Do`, failure reading the body, a non-200
status, a JSON decoding failure) or to a decoded response carrying the
list of completion contents. -/
inductive ProviderOutcome where
  | transportError (msg : String)
  | readError (msg : String)
  | httpError (status : Nat) (body : String)
  | parseError (msg : String)
  | success (choices : List String)
deriving DecidableEq

/-- Single call to the AI API (source: `mcp/client.go`, `callOnce`).
It builds the request body, performs the exchange (abstracted by the
`transport` oracle) and produces exactly the error strings of the
source: transport failure, read failure, non-200 status, decode
failure, and the dedicated empty-completion-list error; on success it
returns the first completion content. -/
def callOnce (cfg : Config) (transport : RequestBody → ProviderOutcome)
    (systemPrompt userPrompt : String) : Except String String :=
  let requestBody := buildRequestBody cfg systemPrompt userPrompt
  match transport requestBody with
  | .transportError m => .error ("发送请求失败: " ++ m)
  | .readError m => .error ("读取响应失败: " ++ m)
  | .httpError status body =>
      .error ("API返回错误 (status " ++ toString status ++ "): " ++ body)
  | .parseError m => .error ("解析响应失败: " ++ m)
  | .success choices =>
      match choices with
      | [] => .error "API返回空响应"
      | c :: _ => .ok c

/-- Does the character list `pat` occur at the head of `s`? -/
def headMatches : List Char → List Char → Bool
  | _, [] => true
  | [], _ :: _ => false
  | a :: as, b :: bs => a == b && headMatches as bs

/-- Does the character list `pat` occur anywhere inside `s`?
This is the substring test `strings.Contains` performs (the indicators
searched for are ASCII, so byte-level and character-level matching
agree). -/
def charsContain : List Char → List Char → Bool
  | [], pat => pat.isEmpty
  | a :: rest, pat => headMatches (a :: rest) pat || charsContain rest pat

/-- Substring test on strings, used by the transient-error classifier. -/
def strContains (s pat : String) : Bool :=
  charsContain s.data pat.data

/-- The fixed list of transient indicators (source: `mcp/client.go`,
`isRetryableError`, slice `retryableErrors`). -/
def retryableIndicators : List String :=
  ["EOF", "timeout", "connection reset", "connection refused",
   "temporary failure", "no such host"]

/-- Transient-error classifier (source: `mcp/client.go`,
`isRetryableError`): an error is retryable when its description contains
one of the fixed indicators. -/
def isRetryableError (errStr : String) : Bool :=
  retryableIndicators.any (fun r => strContains errStr r)

deriving instance DecidableEq for Except

/-- Observable trace of one logical invocation: the returned value, how
many underlying attempts were performed, and the sequence of backoff
waits (in seconds) slept between attempts. -/
structure CallTrace where
  result : Except String String
  attempts : Nat
  waits : List Nat
deriving DecidableEq

/-- The fixed retry ceiling (source: `mcp/client.go`, `maxRetries := 3`). -/
def maxRetries : Nat := 3

/-- The wrapped error returned after all attempts are exhausted
(source: `fmt.Errorf("重试%d次后仍然失败: %w", maxRetries, lastErr)`). -/
def wrapExhausted (retries : Nat) (lastErr : Option String) : String :=
  "重试" ++ toString retries ++ "次后仍然失败: " ++ lastErr.getD ""

/-- The retry loop of `CallWithMessages` (source: `mcp/client.go`,
`for attempt := 1; attempt <= maxRetries; attempt++`).  The loop
condition `attempt <= maxRetries` is rendered by the fuel argument,
which at every entry equals `maxRetries + 1 - attempt`; fuel 0 is
exactly the loop exiting with all attempts exhausted.  `step attempt`
is the result of `callOnce` on that attempt; a retryable error recurses
after recording the linear backoff wait `attempt * 2` seconds (slept
only when a further attempt remains); any other error returns at once. -/
def callLoop (step : Nat → Except String String) :
    Nat → Nat → Option String → List Nat → CallTrace
  | 0, attempt, lastErr, waits =>
      ⟨.error (wrapExhausted maxRetries lastErr), attempt - 1, waits⟩
  | fuel + 1, attempt, _, waits =>
      match step attempt with
      | .ok result => ⟨.ok result, attempt, waits⟩
      | .error e =>
          if isRetryableError e then
            callLoop step fuel (attempt + 1) (some e)
              (if attempt < maxRetries then waits ++ [attempt * 2] else waits)
          else ⟨.error e, attempt, waits⟩

/-- The missing-credential error of the shared-default path. -/
def keyMissingMsg : String :=
  "AI API密钥未设置，请先调用 SetDeepSeekAPIKey() 或 SetQwenAPIKey()"

/-- Shared-default invocation entry point (source: `mcp/client.go`,
`CallWithMessages`).  The shared default configuration read by the
source at call time is passed explicitly as `cfg`; the per-attempt
transport oracle is indexed by the attempt number. -/
def CallWithMessages (cfg : Config) (transports : Nat → RequestBody → ProviderOutcome)
    (systemPrompt userPrompt : String) : CallTrace :=
  if cfg.apiKey == "" then ⟨.error keyMissingMsg, 0, []⟩
  else
    callLoop (fun attempt => callOnce cfg (transports attempt) systemPrompt userPrompt)
      maxRetries 1 none []

/-- Explicit-per-call-configuration invocation path (source:
`mcp/client.go`, `CallWithMessagesWithConfig`): one key check, then a
single `callOnce`, with no loop around it. -/
def CallWithMessagesWithConfig (cfg : Config) (transport : RequestBody → ProviderOutcome)
    (systemPrompt userPrompt : String) : CallTrace :=
  if cfg.apiKey == "" then ⟨.error "AI API密钥未设置", 0, []⟩
  else ⟨callOnce cfg transport systemPrompt userPrompt, 1, []⟩

/-- A desired-state record (source: `db` package, `struct TraderDoc`),
restricted to the fields `ToConfig` reads (the Mongo object id and the
timestamps are never consulted by the reconciliation pass).
`InitialBalance` is a `float64` that is only carried, never computed
with; it is rendered as an integer value. -/
structure TraderDoc where
  traderID : String
  name : String
  aiModel : String
  exchange : String
  binanceAPIKey : String
  binanceSecretKey : String
  binanceTestnet : Bool
  hyperliquidPrivateKey : String
  hyperliquidTestnet : Bool
  asterUser : String
  asterSigner : String
  asterPrivateKey : String
  qwenKey : String
  deepSeekKey : String
  customAPIURL : String
  customAPIKey : String
  customModelName : String
  initialBalance : Int
  scanIntervalMinutes : Int
  enabled : Bool
deriving DecidableEq

/-- Per-worker configuration (source: `config.TraderConfig` as populated
by `db.ToConfig`). -/
structure TraderConfig where
  id : String
  name : String
  aiModel : String
  exchange : String
  binanceAPIKey : String
  binanceSecretKey : String
  binanceTestnet : Bool
  hyperliquidPrivateKey : String
  hyperliquidTestnet : Bool
  asterUser : String
  asterSigner : String
  asterPrivateKey : String
  qwenKey : String
  deepSeekKey : String
  customAPIURL : String
  customAPIKey : String
  customModelName : String
  initialBalance : Int
  scanIntervalMinutes : Int
  enabled : Bool
deriving DecidableEq

/-- Field-by-field conversion from a desired-state record to a worker
configuration (source: `db` package, `func ToConfig`). -/
def ToConfig (td : TraderDoc) : TraderConfig :=
  ⟨td.traderID, td.name, td.aiModel, td.exchange, td.binanceAPIKey,
   td.binanceSecretKey, td.binanceTestnet, td.hyperliquidPrivateKey,
   td.hyperliquidTestnet, td.asterUser, td.asterSigner, td.asterPrivateKey,
   td.qwenKey, td.deepSeekKey, td.customAPIURL, td.customAPIKey,
   td.customModelName, td.initialBalance, td.scanIntervalMinutes, td.enabled⟩

/-- Modelled from the spec: a live worker handle owned by the fleet
registry (`nofx/manager`, not under the available sources): its
identifier, the immutable configuration it was created from, the
mutable trading-enabled flag, and whether its task is running. -/
structure Trader where
  id : String
  config : TraderConfig
  tradingEnabled : Bool
  running : Bool
deriving DecidableEq

/-- Modelled from the spec: the fleet registry state — the collection of
live handles keyed by identifier (never two handles with the same id). -/
structure TraderManager where
  traders : List Trader
deriving DecidableEq

/-- Modelled from the spec: the error taxonomy of registry operations.
`environmentFailure` abstracts any per-item environmental failure an
operation can report beyond registry bookkeeping (it is driven by the
failure oracles below). -/
inductive RegError where
  | duplicateIdentifier
  | notFound
  | environmentFailure
deriving DecidableEq

/-- Leverage settings carried in the global configuration (source:
`config.LeverageConfig`). -/
structure LeverageConfig where
  btcEthLeverage : Nat
  altcoinLeverage : Nat
deriving DecidableEq

/-- Global configuration consulted when constructing a new worker
(source: `config.Config` fields used at `api/server.go` in
`handleAdminReload`).  The `float64` fields are only carried, never
computed with; they are rendered as rationals. -/
structure GlobalConfig where
  useDefaultCoins : Bool
  coinPoolAPIURL : String
  oiTopAPIURL : String
  maxDailyLoss : Rat
  maxDrawdown : Rat
  stopTradingMinutes : Nat
  leverage : LeverageConfig
deriving DecidableEq

/-- The global-configuration value built inside the add loop of
`handleAdminReload` when at least one live trader exists (source:
`api/server.go`, the literal `&config.Config{...}`). -/
def mkGlobalConfig : GlobalConfig :=
  ⟨true, "", "", (1 : Rat) / 10, (2 : Rat) / 10, 60, ⟨5, 5⟩⟩

/-- Modelled from the spec: `Get(id) -> handle | NotFound`. -/
def TraderManager.getTrader (m : TraderManager) (id : String) : Except RegError Trader :=
  match m.traders.find? (fun t => t.id == id) with
  | some t => .ok t
  | none => .error .notFound

/-- Modelled from the spec: `Remove(id)` fails with `NotFound` if the
identifier is absent and otherwise evicts the handle.  `removeFails`
is the per-item environmental failure oracle. -/
def TraderManager.removeTrader (removeFails : String → Bool) (m : TraderManager)
    (id : String) : Except RegError TraderManager :=
  if m.traders.any (fun t => t.id == id) then
    if removeFails id then .error .environmentFailure
    else .ok ⟨m.traders.filter (fun t => !(t.id == id))⟩
  else .error .notFound

/-- Modelled from the spec: `Add(config)` fails with
`DuplicateIdentifier` if a handle with that id already exists and
otherwise registers a handle in the created (not yet running) state,
its trading flag initialised from the configuration as loaded.  The
global runtime parameters are accepted (mirroring the call arity at
`api/server.go`) but play no role in registry bookkeeping.  `addFails`
is the per-item environmental failure oracle (covering invalid
configurations and any other non-registry failure). -/
def TraderManager.addTrader (addFails : String → Bool) (m : TraderManager)
    (cfg : TraderConfig) (_coinPoolAPIURL : String) (_maxDailyLoss _maxDrawdown : Rat)
    (_stopTradingMinutes : Nat) (_leverage : LeverageConfig) :
    Except RegError TraderManager :=
  if m.traders.any (fun t => t.id == cfg.id) then .error .duplicateIdentifier
  else if addFails cfg.id then .error .environmentFailure
  else .ok ⟨m.traders ++ [⟨cfg.id, cfg, cfg.enabled, false⟩]⟩

/-- Modelled from the spec: `SetEnabled(id, bool)` fails with `NotFound`
if the identifier is absent and otherwise flips the flag in place. -/
def TraderManager.setTradingEnabled (m : TraderManager) (id : String) (v : Bool) :
    Except RegError TraderManager :=
  if m.traders.any (fun t => t.id == id) then
    .ok ⟨m.traders.map (fun t => if t.id == id then { t with tradingEnabled := v } else t)⟩
  else .error .notFound

/-- Modelled from the spec: starting the task of the handle with the
given identifier (the `go trader.Run()` at `api/server.go`). -/
def TraderManager.startTrader (m : TraderManager) (id : String) : TraderManager :=
  ⟨m.traders.map (fun t => if t.id == id then { t with running := true } else t)⟩

/-- Body of the removal loop of `handleAdminReload` (source:
`api/server.go`): identifiers absent from the database are removed; a
per-item failure is logged and skipped; only a successful removal
increments the counter. -/
def removeStep (dbTraderIDs : List String) (removeFails : String → Bool)
    (acc : TraderManager × Nat) (traderID : String) : TraderManager × Nat :=
  if dbTraderIDs.contains traderID then acc
  else
    match TraderManager.removeTrader removeFails acc.1 traderID with
    | .error _ => acc
    | .ok m2 => (m2, acc.2 + 1)

/-- Body of the addition loop of `handleAdminReload` (source:
`api/server.go`): database records whose identifier is not in the
pre-pass live set are added and started.  The source assigns
`globalConfig` only when `len(currentTraders) > 0` and then
unconditionally dereferences it; the `none` case of the dereference is
the nil-pointer panic, which collapses the whole computation to
`none`. -/
def addStep (currentTraders : List Trader) (currentTraderIDs : List String)
    (addFails : String → Bool) (acc : Option (TraderManager × Nat))
    (traderDoc : TraderDoc) : Option (TraderManager × Nat) :=
  match acc with
  | none => none
  | some (mgr, addedCount) =>
      if currentTraderIDs.contains traderDoc.traderID then some (mgr, addedCount)
      else
        let cfg := ToConfig traderDoc
        let globalConfig : Option GlobalConfig :=
          if currentTraders.length > 0 then some mkGlobalConfig else none
        match globalConfig with
        | none => none
        | some gc =>
            match TraderManager.addTrader addFails mgr cfg gc.coinPoolAPIURL
                gc.maxDailyLoss gc.maxDrawdown gc.stopTradingMinutes gc.leverage with
            | .error _ => some (mgr, addedCount)
            | .ok m2 =>
                match TraderManager.getTrader m2 traderDoc.traderID with
                | .error _ => some (m2, addedCount)
                | .ok _ => some (TraderManager.startTrader m2 traderDoc.traderID, addedCount + 1)

/-- The `dbEnabled` map of `handleAdminReload`: enabled flag by
identifier, later records overwriting earlier ones (as Go map insertion
does), hence the lookup on the reversed list. -/
def dbEnabledLookup (tradersFromDB : List TraderDoc) (id : String) : Option Bool :=
  (tradersFromDB.reverse.find? (fun td => td.traderID == id)).map (fun td => td.enabled)

/-- Body of the flag-sync loop of `handleAdminReload` (source:
`api/server.go`): every member of the (post-addition) live snapshot
whose identifier is in the database map gets `SetTradingEnabled`
applied with the database value, its error discarded, and the sync
counter incremented unconditionally. -/
def syncStep (tradersFromDB : List TraderDoc) (acc : TraderManager × Nat)
    (t : Trader) : TraderManager × Nat :=
  match dbEnabledLookup tradersFromDB t.id with
  | some v =>
      (match TraderManager.setTradingEnabled acc.1 t.id v with
       | .ok m2 => (m2, acc.2 + 1)
       | .error _ => (acc.1, acc.2 + 1))
  | none => acc

/-- The three aggregate counts reported by one reconciliation pass. -/
structure ReloadCounts where
  addedCount : Nat
  removedCount : Nat
  synced : Nat
deriving DecidableEq

/-- One reconciliation pass (source: `api/server.go`,
`handleAdminReload`).  `fetch` is the result of `db.ListTraders`; on
fetch failure the pass aborts with the wrapped fetch error and the
registry untouched.  Otherwise it removes live identifiers absent from
the snapshot, adds snapshot identifiers absent from the pre-pass live
set, re-syncs the trading flag of every member of the refreshed live
snapshot present in the snapshot map, and reports the three counts.
The outer `Option` is `none` exactly when the nil global-configuration
pointer is dereferenced (see `addStep`).  Go map iteration order in the
removal loop is rendered as the registry list order; removals of
distinct identifiers commute, so the choice is immaterial. -/
def handleAdminReload (fetch : Except String (List TraderDoc)) (m : TraderManager)
    (removeFails addFails : String → Bool) :
    Option (TraderManager × Except String ReloadCounts) :=
  match fetch with
  | .error err => some (m, .error ("从数据库加载交易者失败: " ++ err))
  | .ok tradersFromDB =>
      let currentTraders := m.traders
      let currentTraderIDs := currentTraders.map (fun t => t.id)
      let dbTraderIDs := tradersFromDB.map (fun td => td.traderID)
      let afterRemove := currentTraderIDs.foldl (removeStep dbTraderIDs removeFails) (m, 0)
      let afterAdd := tradersFromDB.foldl
        (addStep currentTraders currentTraderIDs addFails) (some (afterRemove.1, 0))
      match afterAdd with
      | none => none
      | some (m3, addedCount) =>
          let afterSync := m3.traders.foldl (syncStep tradersFromDB) (m3, 0)
          some (afterSync.1, .ok ⟨addedCount, afterRemove.2, afterSync.2⟩)

/-- The identifiers of the live fleet. -/
def liveIds (m : TraderManager) : List String := m.traders.map (fun t => t.id)

/-- The identifiers of the desired-state snapshot. -/
def desiredIds (docs : List TraderDoc) : List String := docs.map (fun td => td.traderID)

/-- A live handle survives the removal loop when its identifier is in
the snapshot or its removal failed. -/
def keepLive (dbTraderIDs : List String) (removeFails : String → Bool) (t : Trader) : Bool :=
  dbTraderIDs.contains t.id || removeFails t.id

/-- A snapshot record produces a new live handle when its identifier is
not in the pre-pass live set and its addition did not fail. -/
def shouldAdd (currentTraderIDs : List String) (addFails : String → Bool)
    (td : TraderDoc) : Bool :=
  !currentTraderIDs.contains td.traderID && !addFails td.traderID

/-- The handle created and started for a freshly added record. -/
def mkStartedTrader (td : TraderDoc) : Trader :=
  ⟨td.traderID, ToConfig td, (ToConfig td).enabled, true⟩

/-- The effect of the flag-sync loop on one handle: its trading flag is
set to the snapshot value when its identifier is in the snapshot map. -/
def syncFlag (tradersFromDB : List TraderDoc) (t : Trader) : Trader :=
  match dbEnabledLookup tradersFromDB t.id with
  | some v => { t with tradingEnabled := v }
  | none => t

/-- The effect on one handle `u` of the sync-loop iteration that visits
the snapshot member `t` (used to reason about the flag-sync fold). -/
def syncUpdOne (docs : List TraderDoc) (t : Trader) (u : Trader) : Trader :=
  match dbEnabledLookup docs t.id with
  | some v => if u.id == t.id then { u with tradingEnabled := v } else u
  | none => u

/-- The live handles surviving the removal loop. -/
def keptTraders (docs : List TraderDoc) (rf : String → Bool) (m : TraderManager) :
    List Trader :=
  m.traders.filter (keepLive (desiredIds docs) rf)

/-- The live handles created by the addition loop. -/
def addedTraders (docs : List TraderDoc) (af : String → Bool) (m : TraderManager) :
    List Trader :=
  (docs.filter (shouldAdd (liveIds m) af)).map mkStartedTrader

/-- The live fleet after removals and additions, before the flag sync. -/
def preSyncTraders (docs : List TraderDoc) (rf af : String → Bool) (m : TraderManager) :
    List Trader :=
  keptTraders docs rf m ++ addedTraders docs af m

/-- A sample desired-state record used by the concrete scenarios. -/
def sampleDoc (id : String) (enabled : Bool) : TraderDoc :=
  ⟨id, "name-" ++ id, "deepseek", "binance", "", "", false, "", false,
   "", "", "", "", "", "", "", "", 100, 5, enabled⟩

/-- A sample live handle used by the concrete scenarios. -/
def sampleTrader (id : String) (enabled : Bool) : Trader :=
  ⟨id, ToConfig (sampleDoc id enabled), enabled, true⟩

/-- The desired set D of the example scenario of the specification:
A with enabled true, B with enabled false. -/
def exampleDocs : List TraderDoc := [sampleDoc "A" true, sampleDoc "B" false]

/-- The live set L of the example scenario of the specification:
B and C. -/
def exampleMgr : TraderManager := ⟨[sampleTrader "B" true, sampleTrader "C" true]⟩

/-- The always-succeeding per-item failure oracle. -/
def noFail : String → Bool := fun _ => false

/-- A configuration with a credential set, for concrete scenarios. -/
def witnessCfg : Config :=
  ⟨"deepseek", "key", "", "https://api.deepseek.com/v1", "deepseek-chat", 120⟩

/-- A configuration with no credential set, for concrete scenarios. -/
def noKeyCfg : Config :=
  ⟨"deepseek", "", "", "https://api.deepseek.com/v1", "deepseek-chat", 120⟩

/-- A transport oracle on which every exchange fails with a refused
connection (a transient-classified failure). -/
def alwaysRefused : Nat → RequestBody → ProviderOutcome :=
  fun _ _ => .transportError "connection refused"

/-- A transport oracle on which every exchange ends with HTTP 401
(a permanent-classified failure). -/
def alwaysUnauthorized : Nat → RequestBody → ProviderOutcome :=
  fun _ _ => .httpError 401 "bad key"

/-- A transport oracle on which every exchange decodes to an empty
completion list. -/
def emptyChoices : Nat → RequestBody → ProviderOutcome :=
  fun _ _ => .success []

theorem callLoop_all_retryable (step : Nat → Except String String) (e1 e2 e3 : String)
    (h1 : step 1 = .error e1) (r1 : isRetryableError e1 = true)
    (h2 : step 2 = .error e2) (r2 : isRetryableError e2 = true)
    (h3 : step 3 = .error e3) (r3 : isRetryableError e3 = true) :
    callLoop step 3 1 none [] = ⟨.error ("重试3次后仍然失败: " ++ e3), 3, [2, 4]⟩ := by
  calc callLoop step 3 1 none []
      = (match step 1 with
         | .ok r => (⟨.ok r, 1, []⟩ : CallTrace)
         | .error e =>
             if isRetryableError e then callLoop step 2 2 (some e) [2]
             else ⟨.error e, 1, []⟩) := rfl
    _ = callLoop step 2 2 (some e1) [2] := by rw [h1]; simp [r1]
    _ = (match step 2 with
         | .ok r => (⟨.ok r, 2, [2]⟩ : CallTrace)
         | .error e =>
             if isRetryableError e then callLoop step 1 3 (some e) [2, 4]
             else ⟨.error e, 2, [2]⟩) := rfl
    _ = callLoop step 1 3 (some e2) [2, 4] := by rw [h2]; simp [r2]
    _ = (match step 3 with
         | .ok r => (⟨.ok r, 3, [2, 4]⟩ : CallTrace)
         | .error e =>
             if isRetryableError e then callLoop step 0 4 (some e) [2, 4]
             else ⟨.error e, 3, [2, 4]⟩) := rfl
    _ = callLoop step 0 4 (some e3) [2, 4] := by rw [h3]; simp [r3]
    _ = ⟨.error ("重试3次后仍然失败: " ++ e3), 3, [2, 4]⟩ := rfl

theorem callLoop_first_permanent (step : Nat → Except String String) (e : String)
    (h1 : step 1 = .error e) (hp : isRetryableError e = false) :
    callLoop step 3 1 none [] = ⟨.error e, 1, []⟩ := by
  calc callLoop step 3 1 none []
      = (match step 1 with
         | .ok r => (⟨.ok r, 1, []⟩ : CallTrace)
         | .error e =>
             if isRetryableError e then callLoop step 2 2 (some e) [2]
             else ⟨.error e, 1, []⟩) := rfl
    _ = ⟨.error e, 1, []⟩ := by rw [h1]; simp [hp]

theorem callWithMessages_unfolds (cfg : Config)
    (transports : Nat → RequestBody → ProviderOutcome) (sys usr : String)
    (hkey : ¬ cfg.apiKey = "") :
    CallWithMessages cfg transports sys usr =
      callLoop (fun attempt => callOnce cfg (transports attempt) sys usr) 3 1 none [] := by
  unfold CallWithMessages
  rw [if_neg (by simp [hkey])]
  rfl

/-- C5: if every underlying single-attempt call fails with a
transient-classified error, the invocation performs exactly 3 attempts
and returns an error wrapping the last underlying error together with
the attempt count (and sleeps the linear backoff waits 2 and 4 seconds
between attempts). -/
theorem c5_retry_ceiling_exhaustion (cfg : Config)
    (transports : Nat → RequestBody → ProviderOutcome) (sys usr : String)
    (hkey : ¬ cfg.apiKey = "")
    (hfail : ∀ a, ∃ e, callOnce cfg (transports a) sys usr = .error e ∧
      isRetryableError e = true) :
    ∃ e3, callOnce cfg (transports 3) sys usr = .error e3 ∧
      CallWithMessages cfg transports sys usr =
        ⟨.error ("重试3次后仍然失败: " ++ e3), 3, [2, 4]⟩ := by
  obtain ⟨e1, h1, r1⟩ := hfail 1
  obtain ⟨e2, h2, r2⟩ := hfail 2
  obtain ⟨e3, h3, r3⟩ := hfail 3
  refine ⟨e3, h3, ?_⟩
  rw [callWithMessages_unfolds cfg transports sys usr hkey]
  exact callLoop_all_retryable _ e1 e2 e3 h1 r1 h2 r2 h3 r3

/-- Witness for C5 at a concrete input: every attempt is refused, the
call reports 3 attempts and the wrapped final cause. -/
theorem c5_witness :
    ∃ e3, callOnce witnessCfg (alwaysRefused 3) "s" "u" = .error e3 ∧
      CallWithMessages witnessCfg alwaysRefused "s" "u" =
        ⟨.error ("重试3次后仍然失败: " ++ e3), 3, [2, 4]⟩ :=
  c5_retry_ceiling_exhaustion witnessCfg alwaysRefused "s" "u" (by decide)
    (fun _ => ⟨"发送请求失败: connection refused", rfl, by decide⟩)

/-- C6: a first attempt failing with an error matching none of the
transient indicators is returned after exactly 1 attempt, with no retry
and no backoff wait. -/
theorem c6_permanent_short_circuit (cfg : Config)
    (transports : Nat → RequestBody → ProviderOutcome) (sys usr e : String)
    (hkey : ¬ cfg.apiKey = "")
    (h1 : callOnce cfg (transports 1) sys usr = .error e)
    (hperm : isRetryableError e = false) :
    CallWithMessages cfg transports sys usr = ⟨.error e, 1, []⟩ := by
  rw [callWithMessages_unfolds cfg transports sys usr hkey]
  exact callLoop_first_permanent _ e h1 hperm

/-- Witness for C6 at a concrete input: an HTTP 401 outcome is returned
after one attempt. -/
theorem c6_witness :
    CallWithMessages witnessCfg alwaysUnauthorized "s" "u" =
      ⟨.error "API返回错误 (status 401): bad key", 1, []⟩ :=
  c6_permanent_short_circuit witnessCfg alwaysUnauthorized "s" "u" _ (by decide) rfl
    (by decide)

/-- C7: a provider response whose completion list is empty fails with
the dedicated empty-response error, which is not transient-classified,
is surfaced after exactly 1 attempt with no retry, and differs from
every transport-level failure message. -/
theorem c7_empty_response (cfg : Config)
    (transports : Nat → RequestBody → ProviderOutcome) (sys usr : String)
    (hkey : ¬ cfg.apiKey = "")
    (hempty : transports 1 (buildRequestBody cfg sys usr) = .success []) :
    CallWithMessages cfg transports sys usr = ⟨.error "API返回空响应", 1, []⟩ ∧
    isRetryableError "API返回空响应" = false ∧
    (∀ m, "API返回空响应" ≠ "发送请求失败: " ++ m) := by
  have hco : callOnce cfg (transports 1) sys usr = .error "API返回空响应" := by
    simp only [callOnce]
    rw [hempty]
  refine ⟨?_, by decide, ?_⟩
  · rw [callWithMessages_unfolds cfg transports sys usr hkey]
    exact callLoop_first_permanent _ _ hco (by decide)
  · intro m h
    have hlen := congrArg String.length h
    rw [String.length_append] at hlen
    rw [show ("发送请求失败: ").length = 8 from rfl] at hlen
    rw [show ("API返回空响应").length = 8 from rfl] at hlen
    have hm0 : m.length = 0 := by omega
    have hm : m = "" := by
      cases m with
      | mk data =>
        simp only [String.length] at hm0
        simp [List.length_eq_zero] at hm0
        simp [hm0]
    rw [hm] at h
    exact absurd h (by decide)

/-- Witness for C7 at a concrete input. -/
theorem c7_witness :
    CallWithMessages witnessCfg emptyChoices "s" "u" = ⟨.error "API返回空响应", 1, []⟩ ∧
    isRetryableError "API返回空响应" = false ∧
    (∀ m, "API返回空响应" ≠ "发送请求失败: " ++ m) :=
  c7_empty_response witnessCfg emptyChoices "s" "u" (by decide) rfl

/-- C8: with no credential set, the invocation fails immediately with
the configuration error, performing zero attempts and no retries,
whatever the transport would have answered. -/
theorem c8_missing_credential (cfg : Config)
    (transports : Nat → RequestBody → ProviderOutcome) (sys usr : String)
    (hkey : cfg.apiKey = "") :
    CallWithMessages cfg transports sys usr = ⟨.error keyMissingMsg, 0, []⟩ := by
  unfold CallWithMessages
  rw [if_pos (by simp [hkey])]

/-- Witness for C8 at a concrete input. -/
theorem c8_witness :
    CallWithMessages noKeyCfg alwaysRefused "s" "u" = ⟨.error keyMissingMsg, 0, []⟩ :=
  c8_missing_credential noKeyCfg alwaysRefused "s" "u" rfl

/-- C10: the explicit-per-call-configuration path performs exactly one
underlying attempt with no backoff even when the resulting error is
transient-classified, and fails immediately with the configuration
error (zero attempts) when the supplied configuration has an empty API
key. -/
theorem c10_explicit_config_single_attempt (cfg : Config)
    (transport : RequestBody → ProviderOutcome) (sys usr e : String)
    (hkey : ¬ cfg.apiKey = "")
    (he : callOnce cfg transport sys usr = .error e)
    (_hretry : isRetryableError e = true) :
    CallWithMessagesWithConfig cfg transport sys usr = ⟨.error e, 1, []⟩ ∧
    (∀ cfg2 transport2, cfg2.apiKey = "" →
      CallWithMessagesWithConfig cfg2 transport2 sys usr =
        ⟨.error "AI API密钥未设置", 0, []⟩) := by
  constructor
  · unfold CallWithMessagesWithConfig
    rw [if_neg (by simp [hkey]), he]
  · intro cfg2 transport2 h2
    unfold CallWithMessagesWithConfig
    rw [if_pos (by simp [h2])]

/-- Witness for C10 at a concrete input. -/
theorem c10_witness :
    CallWithMessagesWithConfig witnessCfg (alwaysRefused 1) "s" "u" =
      ⟨.error "发送请求失败: connection refused", 1, []⟩ ∧
    (∀ cfg2 transport2, cfg2.apiKey = "" →
      CallWithMessagesWithConfig cfg2 transport2 "s" "u" =
        ⟨.error "AI API密钥未设置", 0, []⟩) :=
  c10_explicit_config_single_attempt witnessCfg (alwaysRefused 1) "s" "u"
    "发送请求失败: connection refused" (by decide) rfl (by decide)

theorem map_id_of_eq {l : List Trader} {f : Trader → Trader}
    (h : ∀ x ∈ l, f x = x) : l.map f = l := by
  conv_rhs => rw [← List.map_id l]
  exact List.map_congr_left h

theorem removeFold_eq (dbIds : List String) (rf : String → Bool) :
    ∀ (todo done : List Trader) (c : Nat),
      ((done ++ todo).map (fun t => t.id)).Nodup →
      (todo.map (fun t => t.id)).foldl (removeStep dbIds rf) (⟨done ++ todo⟩, c) =
        (⟨done ++ todo.filter (keepLive dbIds rf)⟩,
         c + (todo.filter (fun t => !keepLive dbIds rf t)).length) := by
  intro todo
  induction todo with
  | nil =>
    intro done c _
    simp
  | cons t rest ih =>
    intro done c hnd
    have hids : ((done.map (fun t => t.id)) ++ (t.id :: rest.map (fun t => t.id))).Nodup := by
      simpa using hnd
    have hdone : ∀ u ∈ done, (u.id == t.id) = false := by
      intro u hu
      have hdisj := (List.nodup_append.mp hids).2.2
      by_contra hne
      have heq : u.id = t.id := by simpa using hne
      have hin : u.id ∈ done.map (fun t => t.id) := List.mem_map_of_mem _ hu
      rw [heq] at hin
      exact hdisj hin (by simp)
    have hrest : ∀ u ∈ rest, (u.id == t.id) = false := by
      intro u hu
      have hnotin : t.id ∉ rest.map (fun t => t.id) :=
        (List.nodup_cons.mp (List.nodup_append.mp hids).2.1).1
      by_contra hne
      have heq : u.id = t.id := by simpa using hne
      have hin : u.id ∈ rest.map (fun t => t.id) := List.mem_map_of_mem _ hu
      rw [heq] at hin
      exact hnotin hin
    have hany : (done ++ t :: rest).any (fun u => u.id == t.id) = true := by
      rw [List.any_eq_true]
      exact ⟨t, by simp, by simp⟩
    simp only [List.map_cons, List.foldl_cons]
    by_cases hk : keepLive dbIds rf t = true
    · -- the handle survives: either in the snapshot, or its removal failed
      have hstep : removeStep dbIds rf (⟨done ++ t :: rest⟩, c) t.id =
          (⟨done ++ t :: rest⟩, c) := by
        simp only [removeStep]
        by_cases h1 : dbIds.contains t.id = true
        · rw [if_pos h1]
        · rw [if_neg h1]
          have h1f : dbIds.contains t.id = false := by
            cases hcc : dbIds.contains t.id with
            | false => rfl
            | true => exact absurd hcc h1
          have h2 : rf t.id = true := by
            cases hcc : rf t.id with
            | true => rfl
            | false =>
              unfold keepLive at hk
              rw [h1f, hcc] at hk
              simp at hk
          have hrt : TraderManager.removeTrader rf ⟨done ++ t :: rest⟩ t.id =
              .error .environmentFailure := by
            simp only [TraderManager.removeTrader]
            rw [if_pos hany, if_pos h2]
          rw [hrt]
      rw [hstep, List.append_cons]
      have hnd' : (((done ++ [t]) ++ rest).map (fun t => t.id)).Nodup := by
        rw [← List.append_cons]
        exact hnd
      rw [ih (done ++ [t]) c hnd']
      rw [List.filter_cons_of_pos hk, List.filter_cons_of_neg (by simp [hk])]
      simp [List.append_assoc]
    · -- the handle is removed
      have hkf : keepLive dbIds rf t = false := by
        simpa using hk
      have h1 : dbIds.contains t.id = false := by
        cases hcc : dbIds.contains t.id with
        | false => rfl
        | true =>
          unfold keepLive at hkf
          rw [hcc] at hkf
          simp at hkf
      have h2 : rf t.id = false := by
        cases hcc : rf t.id with
        | false => rfl
        | true =>
          unfold keepLive at hkf
          rw [hcc] at hkf
          simp at hkf
      have hfilter : (done ++ t :: rest).filter (fun u => !(u.id == t.id)) = done ++ rest := by
        rw [List.filter_append]
        congr 1
        · rw [List.filter_eq_self]
          intro u hu
          simp [hdone u hu]
        · rw [List.filter_cons_of_neg (by simp)]
          rw [List.filter_eq_self]
          intro u hu
          simp [hrest u hu]
      have hrt : TraderManager.removeTrader rf ⟨done ++ t :: rest⟩ t.id =
          .ok ⟨done ++ rest⟩ := by
        simp only [TraderManager.removeTrader]
        rw [if_pos hany, if_neg (by rw [h2]; simp)]
        rw [hfilter]
      have hstep : removeStep dbIds rf (⟨done ++ t :: rest⟩, c) t.id =
          (⟨done ++ rest⟩, c + 1) := by
        simp only [removeStep]
        rw [if_neg (by rw [h1]; simp), hrt]
      rw [hstep]
      have hnd'' : ((done ++ rest).map (fun t => t.id)).Nodup :=
        List.Nodup.sublist
          (List.Sublist.map _ (List.Sublist.append_left (List.sublist_cons_self t rest) done))
          hnd
      rw [ih done (c + 1) hnd'']
      rw [List.filter_cons_of_neg (by simp [hkf]), List.filter_cons_of_pos (by simp [hkf])]
      rw [Prod.ext_iff]
      constructor
      · rfl
      · simp only [List.length_cons]
        omega

theorem addFold_eq (currentTraders : List Trader) (curIds : List String) (af : String → Bool) :
    ∀ (docs : List TraderDoc) (mgr : List Trader) (c : Nat),
      (docs.map (fun td => td.traderID)).Nodup →
      (∀ td ∈ docs, curIds.contains td.traderID = false →
        td.traderID ∉ mgr.map (fun t => t.id)) →
      (∀ td ∈ docs, curIds.contains td.traderID = false → 0 < currentTraders.length) →
      docs.foldl (addStep currentTraders curIds af) (some (⟨mgr⟩, c)) =
        some (⟨mgr ++ (docs.filter (shouldAdd curIds af)).map mkStartedTrader⟩,
              c + (docs.filter (shouldAdd curIds af)).length) := by
  intro docs
  induction docs with
  | nil =>
    intro mgr c _ _ _
    simp
  | cons d rest ih =>
    intro mgr c hnd hfresh hgc
    have hndr : (rest.map (fun td => td.traderID)).Nodup := by
      simp only [List.map_cons, List.nodup_cons] at hnd
      exact hnd.2
    have hdnotr : d.traderID ∉ rest.map (fun td => td.traderID) := by
      simp only [List.map_cons, List.nodup_cons] at hnd
      exact hnd.1
    simp only [List.foldl_cons]
    by_cases h1 : curIds.contains d.traderID = true
    · -- already live before the pass: skipped
      have hstep : addStep currentTraders curIds af (some (⟨mgr⟩, c)) d = some (⟨mgr⟩, c) := by
        simp only [addStep]
        rw [if_pos h1]
      rw [hstep]
      rw [ih mgr c hndr (fun td htd hc => hfresh td (List.mem_cons_of_mem d htd) hc)
        (fun td htd hc => hgc td (List.mem_cons_of_mem d htd) hc)]
      have hs : shouldAdd curIds af d = false := by
        unfold shouldAdd
        rw [h1]
        simp
      rw [List.filter_cons_of_neg (by simp [hs])]
    · have h1f : curIds.contains d.traderID = false := by
        cases hcc : curIds.contains d.traderID with
        | false => rfl
        | true => exact absurd hcc h1
      have hne : 0 < currentTraders.length := hgc d (List.mem_cons_self d rest) h1f
      have hgcs : (if currentTraders.length > 0 then some mkGlobalConfig else none) =
          some mkGlobalConfig := by
        rw [if_pos hne]
      have hfreshd : d.traderID ∉ mgr.map (fun t => t.id) :=
        hfresh d (List.mem_cons_self d rest) h1f
      have hAny : mgr.any (fun t => t.id == (ToConfig d).id) = false := by
        rw [List.any_eq_false]
        intro u hu hbeq
        have : u.id = (ToConfig d).id := by simpa using hbeq
        have hgoal : d.traderID ∈ mgr.map (fun t => t.id) := by
          have : u.id = d.traderID := this
          rw [← this]
          exact List.mem_map_of_mem _ hu
        exact hfreshd hgoal
      by_cases h2 : af d.traderID = true
      · -- the addition fails: logged and skipped, not counted
        have hat : TraderManager.addTrader af ⟨mgr⟩ (ToConfig d) mkGlobalConfig.coinPoolAPIURL
            mkGlobalConfig.maxDailyLoss mkGlobalConfig.maxDrawdown
            mkGlobalConfig.stopTradingMinutes mkGlobalConfig.leverage =
            .error .environmentFailure := by
          simp only [TraderManager.addTrader]
          rw [if_neg (by rw [hAny]; simp)]
          rw [if_pos (by exact h2)]
        have hstep : addStep currentTraders curIds af (some (⟨mgr⟩, c)) d = some (⟨mgr⟩, c) := by
          simp only [addStep]
          rw [if_neg h1]
          simp only [hgcs, hat]
        rw [hstep]
        rw [ih mgr c hndr (fun td htd hc => hfresh td (List.mem_cons_of_mem d htd) hc)
          (fun td htd hc => hgc td (List.mem_cons_of_mem d htd) hc)]
        have hs : shouldAdd curIds af d = false := by
          unfold shouldAdd
          rw [h2]
          simp
        rw [List.filter_cons_of_neg (by simp [hs])]
      · -- the record is added and its task started
        have h2f : af d.traderID = false := by
          cases hcc : af d.traderID with
          | false => rfl
          | true => exact absurd hcc h2
        have hat : TraderManager.addTrader af ⟨mgr⟩ (ToConfig d) mkGlobalConfig.coinPoolAPIURL
            mkGlobalConfig.maxDailyLoss mkGlobalConfig.maxDrawdown
            mkGlobalConfig.stopTradingMinutes mkGlobalConfig.leverage =
            .ok ⟨mgr ++ [⟨d.traderID, ToConfig d, (ToConfig d).enabled, false⟩]⟩ := by
          simp only [TraderManager.addTrader]
          rw [if_neg (by rw [hAny]; simp)]
          rw [if_neg (by rw [show (ToConfig d).id = d.traderID from rfl, h2f]; simp)]
          rfl
        have hfind : (mgr ++ [(⟨d.traderID, ToConfig d, (ToConfig d).enabled, false⟩ : Trader)]).find?
            (fun t => t.id == d.traderID) =
            some ⟨d.traderID, ToConfig d, (ToConfig d).enabled, false⟩ := by
          rw [List.find?_append]
          have hnone : mgr.find? (fun t => t.id == d.traderID) = none := by
            rw [List.find?_eq_none]
            intro u hu hbeq
            have : u.id = d.traderID := by simpa using hbeq
            exact hfreshd (this ▸ List.mem_map_of_mem _ hu)
          rw [hnone, Option.none_or]
          simp [List.find?_cons]
        have hget : TraderManager.getTrader
            ⟨mgr ++ [⟨d.traderID, ToConfig d, (ToConfig d).enabled, false⟩]⟩ d.traderID =
            .ok ⟨d.traderID, ToConfig d, (ToConfig d).enabled, false⟩ := by
          simp only [TraderManager.getTrader]
          rw [hfind]
        have hstart : TraderManager.startTrader
            ⟨mgr ++ [⟨d.traderID, ToConfig d, (ToConfig d).enabled, false⟩]⟩ d.traderID =
            ⟨mgr ++ [mkStartedTrader d]⟩ := by
          simp only [TraderManager.startTrader]
          congr 1
          rw [List.map_append]
          congr 1
          · apply map_id_of_eq
            intro u hu
            rw [if_neg]
            intro hbeq
            have : u.id = d.traderID := by simpa using hbeq
            exact hfreshd (this ▸ List.mem_map_of_mem _ hu)
          · simp [mkStartedTrader]
        have hstep : addStep currentTraders curIds af (some (⟨mgr⟩, c)) d =
            some (⟨mgr ++ [mkStartedTrader d]⟩, c + 1) := by
          simp only [addStep]
          rw [if_neg h1]
          simp only [hgcs, hat, hget, hstart]
        rw [hstep]
        have hfresh' : ∀ td ∈ rest, curIds.contains td.traderID = false →
            td.traderID ∉ (mgr ++ [mkStartedTrader d]).map (fun t => t.id) := by
          intro td htd hc
          rw [List.map_append]
          intro hmem
          rcases List.mem_append.mp hmem with hmem1 | hmem2
          · exact hfresh td (List.mem_cons_of_mem d htd) hc hmem1
          · have : td.traderID = d.traderID := by
              simpa [mkStartedTrader] using hmem2
            exact hdnotr (this ▸ List.mem_map_of_mem _ htd)
        rw [ih (mgr ++ [mkStartedTrader d]) (c + 1) hndr hfresh'
          (fun td htd hc => hgc td (List.mem_cons_of_mem d htd) hc)]
        have hs : shouldAdd curIds af d = true := by
          unfold shouldAdd
          rw [h1f, h2f]
          simp
        rw [List.filter_cons_of_pos hs]
        simp only [Option.some.injEq, Prod.mk.injEq, List.map_cons, List.length_cons]
        constructor
        · simp [List.append_assoc]
        · omega

theorem syncFlag_id (docs : List TraderDoc) (u : Trader) : (syncFlag docs u).id = u.id := by
  unfold syncFlag
  cases dbEnabledLookup docs u.id <;> rfl

theorem syncFold_count (docs : List TraderDoc) :
    ∀ (s : List Trader) (mgr : TraderManager) (c : Nat),
      (s.foldl (syncStep docs) (mgr, c)).2 =
        c + (s.filter (fun t => (dbEnabledLookup docs t.id).isSome)).length := by
  intro s
  induction s with
  | nil =>
    intro mgr c
    simp
  | cons t rest ih =>
    intro mgr c
    simp only [List.foldl_cons]
    cases hl : dbEnabledLookup docs t.id with
    | none =>
      have hstep : syncStep docs (mgr, c) t = (mgr, c) := by
        simp only [syncStep]
        rw [hl]
      rw [hstep, ih, List.filter_cons_of_neg (by simp [hl])]
    | some v =>
      cases hset : TraderManager.setTradingEnabled mgr t.id v with
      | ok m2 =>
        have hstep : syncStep docs (mgr, c) t = (m2, c + 1) := by
          simp only [syncStep]
          rw [hl]
          simp only [hset]
        rw [hstep, ih, List.filter_cons_of_pos (by simp [hl])]
        simp only [List.length_cons]
        omega
      | error e =>
        have hstep : syncStep docs (mgr, c) t = (mgr, c + 1) := by
          simp only [syncStep]
          rw [hl]
          simp only [hset]
        rw [hstep, ih, List.filter_cons_of_pos (by simp [hl])]
        simp only [List.length_cons]
        omega

theorem syncFold_traders (docs : List TraderDoc) :
    ∀ (s : List Trader) (mgr : TraderManager) (c : Nat),
      (s.foldl (syncStep docs) (mgr, c)).1.traders =
        s.foldl (fun (acc : List Trader) t => acc.map (syncUpdOne docs t)) mgr.traders := by
  intro s
  induction s with
  | nil =>
    intro mgr c
    rfl
  | cons t rest ih =>
    intro mgr c
    simp only [List.foldl_cons]
    cases hl : dbEnabledLookup docs t.id with
    | none =>
      have hstep : syncStep docs (mgr, c) t = (mgr, c) := by
        simp only [syncStep]
        rw [hl]
      have hmap : mgr.traders.map (syncUpdOne docs t) = mgr.traders := by
        apply map_id_of_eq
        intro u _
        unfold syncUpdOne
        rw [hl]
      rw [hstep, ih, hmap]
    | some v =>
      by_cases hany : mgr.traders.any (fun u => u.id == t.id) = true
      · have hset : TraderManager.setTradingEnabled mgr t.id v =
            .ok ⟨mgr.traders.map
              (fun u => if u.id == t.id then { u with tradingEnabled := v } else u)⟩ := by
          simp only [TraderManager.setTradingEnabled]
          rw [if_pos hany]
        have hstep : syncStep docs (mgr, c) t =
            (⟨mgr.traders.map
              (fun u => if u.id == t.id then { u with tradingEnabled := v } else u)⟩,
             c + 1) := by
          simp only [syncStep]
          rw [hl]
          simp only [hset]
        rw [hstep, ih]
        congr 1
        apply List.map_congr_left
        intro u _
        unfold syncUpdOne
        rw [hl]
      · have hset : TraderManager.setTradingEnabled mgr t.id v = .error .notFound := by
          simp only [TraderManager.setTradingEnabled]
          rw [if_neg hany]
        have hstep : syncStep docs (mgr, c) t = (mgr, c + 1) := by
          simp only [syncStep]
          rw [hl]
          simp only [hset]
        have hmap : mgr.traders.map (syncUpdOne docs t) = mgr.traders := by
          apply map_id_of_eq
          intro u hu
          have hbf : (u.id == t.id) = false := by
            cases hcc : (u.id == t.id) with
            | false => rfl
            | true => exact absurd (List.any_eq_true.mpr ⟨u, hu, hcc⟩) hany
          simp [syncUpdOne, hl, hbf]
        rw [hstep, ih, hmap]

theorem foldl_map_comm (docs : List TraderDoc) :
    ∀ (s : List Trader) (l : List Trader),
      s.foldl (fun (acc : List Trader) t => acc.map (syncUpdOne docs t)) l =
        l.map (fun u => s.foldl (fun u' t => syncUpdOne docs t u') u) := by
  intro s
  induction s with
  | nil =>
    intro l
    simp
  | cons t rest ih =>
    intro l
    simp only [List.foldl_cons]
    rw [ih, List.map_map]
    rfl

theorem foldl_upd_of_absent (docs : List TraderDoc) :
    ∀ (s : List Trader) (u : Trader), (∀ t ∈ s, (u.id == t.id) = false) →
      s.foldl (fun u' t => syncUpdOne docs t u') u = u := by
  intro s
  induction s with
  | nil =>
    intro u _
    rfl
  | cons t rest ih =>
    intro u h
    simp only [List.foldl_cons]
    have hstep : syncUpdOne docs t u = u := by
      have hbf := h t (List.mem_cons_self t rest)
      cases hl : dbEnabledLookup docs t.id with
      | none => simp [syncUpdOne, hl]
      | some v => simp [syncUpdOne, hl, hbf]
    rw [hstep]
    exact ih u (fun x hx => h x (List.mem_cons_of_mem t hx))

theorem applyAll_eq_syncFlag (docs : List TraderDoc) (s : List Trader) (u : Trader)
    (hnd : (s.map (fun t => t.id)).Nodup) (hu : u ∈ s) :
    s.foldl (fun u' t => syncUpdOne docs t u') u = syncFlag docs u := by
  obtain ⟨pre, post, rfl⟩ := List.append_of_mem hu
  have hids : ((pre.map (fun t => t.id)) ++ (u.id :: post.map (fun t => t.id))).Nodup := by
    simpa using hnd
  have hpre : ∀ t ∈ pre, (u.id == t.id) = false := by
    intro t ht
    have hdisj := (List.nodup_append.mp hids).2.2
    by_contra hne
    have heq : u.id = t.id := by simpa using hne
    have hin : t.id ∈ pre.map (fun t => t.id) := List.mem_map_of_mem _ ht
    rw [← heq] at hin
    exact hdisj hin (by simp)
  have hpost : ∀ t ∈ post, (u.id == t.id) = false := by
    intro t ht
    have hnotin : u.id ∉ post.map (fun t => t.id) :=
      (List.nodup_cons.mp (List.nodup_append.mp hids).2.1).1
    by_contra hne
    have heq : u.id = t.id := by simpa using hne
    have hin : t.id ∈ post.map (fun t => t.id) := List.mem_map_of_mem _ ht
    rw [← heq] at hin
    exact hnotin hin
  rw [List.foldl_append]
  rw [foldl_upd_of_absent docs pre u hpre]
  simp only [List.foldl_cons]
  have hstep : syncUpdOne docs u u = syncFlag docs u := by
    unfold syncUpdOne syncFlag
    cases hl : dbEnabledLookup docs u.id with
    | none => rfl
    | some v => simp
  rw [hstep]
  apply foldl_upd_of_absent docs post
  intro t ht
  rw [syncFlag_id]
  exact hpost t ht

theorem syncFold_full (docs : List TraderDoc) (l : List Trader) (c : Nat)
    (hnd : (l.map (fun t => t.id)).Nodup) :
    l.foldl (syncStep docs) ((⟨l⟩ : TraderManager), c) =
      (⟨l.map (syncFlag docs)⟩,
       c + (l.filter (fun t => (dbEnabledLookup docs t.id).isSome)).length) := by
  rw [Prod.ext_iff]
  constructor
  · have h1 := syncFold_traders docs l ⟨l⟩ c
    have h2 := foldl_map_comm docs l l
    have h3 : l.map (fun u => l.foldl (fun u' t => syncUpdOne docs t u') u) =
        l.map (syncFlag docs) :=
      List.map_congr_left (fun u hu => applyAll_eq_syncFlag docs l u hnd hu)
    have : (l.foldl (syncStep docs) ((⟨l⟩ : TraderManager), c)).1.traders =
        l.map (syncFlag docs) := by
      rw [h1, h2, h3]
    cases hres : (l.foldl (syncStep docs) ((⟨l⟩ : TraderManager), c)).1 with
    | mk tr =>
      rw [hres] at this
      simp at this
      simp [this]
  · exact syncFold_count docs l ⟨l⟩ c

theorem addedTraders_ids (docs : List TraderDoc) (af : String → Bool) (m : TraderManager) :
    (addedTraders docs af m).map (fun t => t.id) =
      (docs.filter (shouldAdd (liveIds m) af)).map (fun td => td.traderID) := by
  unfold addedTraders
  rw [List.map_map]
  rfl

theorem not_mem_of_contains_false {l : List String} {x : String}
    (h : l.contains x = false) : x ∉ l := by
  intro hmem
  have h' : List.elem x l = false := h
  have h2 : List.elem x l = true := List.elem_iff.mpr hmem
  rw [h2] at h'
  cases h'

theorem preSync_ids_nodup (docs : List TraderDoc) (rf af : String → Bool) (m : TraderManager)
    (hm : (liveIds m).Nodup) (hd : (desiredIds docs).Nodup) :
    ((preSyncTraders docs rf af m).map (fun t => t.id)).Nodup := by
  unfold preSyncTraders
  rw [List.map_append, List.nodup_append]
  refine ⟨?_, ?_, ?_⟩
  · unfold keptTraders
    exact List.Nodup.sublist (List.Sublist.map _ (List.filter_sublist _)) hm
  · rw [addedTraders_ids]
    exact List.Nodup.sublist (List.Sublist.map _ (List.filter_sublist _)) hd
  · rw [addedTraders_ids]
    intro a ha1 ha2
    obtain ⟨u, hu, rfl⟩ := List.mem_map.mp ha1
    obtain ⟨td, htd, hid⟩ := List.mem_map.mp ha2
    have hsa : shouldAdd (liveIds m) af td = true := List.of_mem_filter htd
    have hcont : (liveIds m).contains td.traderID = false := by
      unfold shouldAdd at hsa
      cases hcc : (liveIds m).contains td.traderID with
      | false => rfl
      | true => rw [hcc] at hsa; simp at hsa
    have hnot : td.traderID ∉ liveIds m := not_mem_of_contains_false hcont
    apply hnot
    rw [hid]
    exact List.mem_map_of_mem _ (List.mem_of_mem_filter hu)

theorem reload_spec (docs : List TraderDoc) (m : TraderManager) (rf af : String → Bool)
    (hm : (liveIds m).Nodup) (hd : (desiredIds docs).Nodup)
    (hgc : ∀ td ∈ docs, (liveIds m).contains td.traderID = false → m.traders ≠ []) :
    handleAdminReload (.ok docs) m rf af =
      some (⟨(preSyncTraders docs rf af m).map (syncFlag docs)⟩,
        .ok ⟨(docs.filter (shouldAdd (liveIds m) af)).length,
             (m.traders.filter (fun t => !keepLive (desiredIds docs) rf t)).length,
             ((preSyncTraders docs rf af m).filter
               (fun t => (dbEnabledLookup docs t.id).isSome)).length⟩) := by
  obtain ⟨tr⟩ := m
  have hm' : (tr.map (fun t => t.id)).Nodup := hm
  have hd' : (docs.map (fun td => td.traderID)).Nodup := hd
  have hrem := removeFold_eq (docs.map (fun td => td.traderID)) rf tr [] 0 (by simpa using hm')
  simp only [List.nil_append, Nat.zero_add] at hrem
  have hfresh : ∀ td ∈ docs, (tr.map (fun t => t.id)).contains td.traderID = false →
      td.traderID ∉ (tr.filter (keepLive (docs.map (fun td => td.traderID)) rf)).map
        (fun t => t.id) := by
    intro td _ hc hmem
    obtain ⟨u, hu, hid⟩ := List.mem_map.mp hmem
    have : td.traderID ∈ tr.map (fun t => t.id) := by
      rw [← hid]
      exact List.mem_map_of_mem _ (List.mem_of_mem_filter hu)
    exact not_mem_of_contains_false hc this
  have hgc' : ∀ td ∈ docs, (tr.map (fun t => t.id)).contains td.traderID = false →
      0 < tr.length := by
    intro td htd hc
    have := hgc td htd hc
    exact List.length_pos.mpr this
  have hadd := addFold_eq tr (tr.map (fun t => t.id)) af docs
    (tr.filter (keepLive (docs.map (fun td => td.traderID)) rf)) 0 hd' hfresh hgc'
  have hndps : (((tr.filter (keepLive (docs.map (fun td => td.traderID)) rf)) ++
      (docs.filter (shouldAdd (tr.map (fun t => t.id)) af)).map mkStartedTrader).map
        (fun t => t.id)).Nodup := by
    have := preSync_ids_nodup docs rf af ⟨tr⟩ hm hd
    simpa [preSyncTraders, keptTraders, addedTraders, liveIds, desiredIds] using this
  have hsync := syncFold_full docs
    ((tr.filter (keepLive (docs.map (fun td => td.traderID)) rf)) ++
      (docs.filter (shouldAdd (tr.map (fun t => t.id)) af)).map mkStartedTrader) 0 hndps
  simp only [handleAdminReload]
  rw [hrem]
  simp only []
  rw [hadd]
  simp only []
  rw [hsync]
  simp only [preSyncTraders, keptTraders, addedTraders, liveIds, desiredIds, Nat.zero_add]

theorem lookup_isSome_eq_contains (docs : List TraderDoc) (i : String) :
    (dbEnabledLookup docs i).isSome = (desiredIds docs).contains i := by
  unfold dbEnabledLookup
  cases hf : docs.reverse.find? (fun td => td.traderID == i) with
  | none =>
    have hnone : ∀ td ∈ docs.reverse, ¬(td.traderID == i) = true := List.find?_eq_none.mp hf
    cases hcc : (desiredIds docs).contains i with
    | false => rfl
    | true =>
      have hmem : i ∈ desiredIds docs := by
        rw [← List.elem_iff]
        exact hcc
      obtain ⟨td, htd, hid⟩ := List.mem_map.mp hmem
      have := hnone td (List.mem_reverse.mpr htd)
      rw [hid] at this
      simp at this
  | some td =>
    have hmem : td ∈ docs := List.mem_reverse.mp (List.mem_of_find?_eq_some hf)
    have hid : td.traderID = i := by simpa using List.find?_some hf
    have : i ∈ desiredIds docs := by
      rw [← hid]
      exact List.mem_map_of_mem _ hmem
    have hco : (desiredIds docs).contains i = true := List.elem_iff.mpr this
    rw [hco]
    rfl

theorem length_filter_map {α : Type} (f : α → String) (l : List α) (q : String → Bool) :
    ((l.map f).filter q).length = (l.filter (fun a => q (f a))).length := by
  rw [List.filter_map, List.length_map]
  rfl

theorem filter_singleton_of_nodup (p : Trader → Bool) :
    ∀ (l : List Trader) (t : Trader), (l.map (fun t => t.id)).Nodup → t ∈ l → p t = true →
      (∀ u ∈ l, p u = true → u.id = t.id) → l.filter p = [t] := by
  intro l
  induction l with
  | nil =>
    intro t _ ht
    cases ht
  | cons a rest ih =>
    intro t hnd ht hp hid
    have hnda : a.id ∉ rest.map (fun t => t.id) := (List.nodup_cons.mp hnd).1
    rcases List.mem_cons.mp ht with rfl | htr
    · rw [List.filter_cons_of_pos hp]
      have hrest : rest.filter p = [] := by
        rw [List.filter_eq_nil_iff]
        intro u hu hpu
        have : u.id = t.id := hid u (List.mem_cons_of_mem _ hu) hpu
        apply hnda
        rw [← this]
        exact List.mem_map_of_mem _ hu
      rw [hrest]
    · have ha : p a = false := by
        cases hcc : p a with
        | false => rfl
        | true =>
          have heq : a.id = t.id := hid a (List.mem_cons_self a rest) hcc
          have hm2 : t.id ∈ rest.map (fun t => t.id) := List.mem_map_of_mem _ htr
          rw [← heq] at hm2
          exact absurd hm2 hnda
      rw [List.filter_cons_of_neg (by simp [ha])]
      exact ih t (List.nodup_cons.mp hnd).2 htr hp
        (fun u hu hpu => hid u (List.mem_cons_of_mem a hu) hpu)

/-- C3: if fetching the desired-state snapshot fails, the pass aborts,
reports the wrapped fetch error, and returns the registry exactly as it
was — no add, remove, or sync is attempted. -/
theorem c3_fetch_failure_aborts (err : String) (m : TraderManager) (rf af : String → Bool) :
    handleAdminReload (.error err) m rf af =
      some (m, .error ("从数据库加载交易者失败: " ++ err)) := rfl

/-- C9: the claim fails on the code.  With an empty live fleet and a
non-empty desired snapshot, the global-configuration pointer stays nil
and is dereferenced by the addition loop: the pass evaluates to `none`
(the nil-pointer panic) instead of completing. -/
theorem c9_nil_global_config_panic :
    handleAdminReload (.ok [sampleDoc "A" true]) ⟨[]⟩ noFail noFail = none := rfl

/-- Counterexample to C1 as stated: on the specification scenario
D = A(enabled), B(disabled) and L = B, C, the pass reports a synced
count of 2 (the flag-sync loop runs over the live set refreshed after
the additions, so it also visits the freshly added A), while the
intersection of the pre-pass live set with D has exactly 1 member. -/
theorem c1_counterexample :
    (handleAdminReload (.ok exampleDocs) exampleMgr noFail noFail).map
        (fun p => p.2.map (fun c => c.synced)) = some (.ok 2) ∧
    ((exampleMgr.traders.map (fun t => t.id)).filter
        (fun i => (exampleDocs.map (fun td => td.traderID)).contains i)).length = 1 ∧
    (2 : Nat) ≠ 1 := by
  refine ⟨by decide, by decide, by decide⟩

/-- C1 (amended): the flag-sync step is applied to exactly the
identifiers in the intersection of the live set as refreshed after the
removals and additions with the desired set; the reported synced count
equals the size of that intersection, and every surviving or added
member whose identifier is in the snapshot ends the pass with its
trading flag equal to the snapshot value.  (On the example scenario the
pass reports added = 1, removed = 1, synced = 2.) -/
theorem c1_sync_over_refreshed (docs : List TraderDoc) (m : TraderManager)
    (rf af : String → Bool)
    (hm : (liveIds m).Nodup) (hd : (desiredIds docs).Nodup)
    (hgc : ∀ td ∈ docs, (liveIds m).contains td.traderID = false → m.traders ≠ []) :
    ∃ mFinal counts, handleAdminReload (.ok docs) m rf af = some (mFinal, .ok counts) ∧
      counts.synced = (mFinal.traders.filter
        (fun t => (desiredIds docs).contains t.id)).length ∧
      (∀ t ∈ mFinal.traders, ∀ v, dbEnabledLookup docs t.id = some v →
        t.tradingEnabled = v) := by
  refine ⟨_, _, reload_spec docs m rf af hm hd hgc, ?_, ?_⟩
  · show ((preSyncTraders docs rf af m).filter
        (fun t => (dbEnabledLookup docs t.id).isSome)).length =
      (((preSyncTraders docs rf af m).map (syncFlag docs)).filter
        (fun t => (desiredIds docs).contains t.id)).length
    rw [List.filter_map, List.length_map]
    congr 1
    apply List.filter_congr
    intro u _
    rw [lookup_isSome_eq_contains]
    show (desiredIds docs).contains u.id =
      (desiredIds docs).contains (syncFlag docs u).id
    rw [syncFlag_id]
  · intro t htmem v hv
    obtain ⟨u, _, rfl⟩ := List.mem_map.mp htmem
    rw [syncFlag_id] at hv
    simp [syncFlag, hv]

/-- Witness for C1 (amended) at the example scenario. -/
theorem c1_witness :
    ∃ mFinal counts, handleAdminReload (.ok exampleDocs) exampleMgr noFail noFail =
        some (mFinal, .ok counts) ∧
      counts.synced = (mFinal.traders.filter
        (fun t => (desiredIds exampleDocs).contains t.id)).length ∧
      (∀ t ∈ mFinal.traders, ∀ v, dbEnabledLookup exampleDocs t.id = some v →
        t.tradingEnabled = v) :=
  c1_sync_over_refreshed exampleDocs exampleMgr noFail noFail (by decide) (by decide)
    (by decide)

/-- C2: after one successful pass, removal was applied to exactly the
live identifiers absent from the desired set (a failed removal is not
counted), addition to exactly the desired identifiers absent from the
pre-pass live set (a failed addition is not counted), the reported
counts equal those set differences minus the per-item failures, and the
resulting live identifiers are exactly the kept intersection plus the
successful additions — when no per-item failure occurs, the live set
becomes exactly the desired set. -/
theorem c2_set_diff (docs : List TraderDoc) (m : TraderManager) (rf af : String → Bool)
    (hm : (liveIds m).Nodup) (hd : (desiredIds docs).Nodup)
    (hgc : ∀ td ∈ docs, (liveIds m).contains td.traderID = false → m.traders ≠ []) :
    ∃ mFinal counts, handleAdminReload (.ok docs) m rf af = some (mFinal, .ok counts) ∧
      counts.removedCount = ((liveIds m).filter
        (fun i => !(desiredIds docs).contains i && !rf i)).length ∧
      counts.addedCount = ((desiredIds docs).filter
        (fun i => !(liveIds m).contains i && !af i)).length ∧
      mFinal.traders.map (fun t => t.id) =
        (liveIds m).filter (fun i => (desiredIds docs).contains i || rf i) ++
        (desiredIds docs).filter (fun i => !(liveIds m).contains i && !af i) ∧
      ((∀ i, rf i = false) → (∀ i, af i = false) →
        ∀ i, (i ∈ mFinal.traders.map (fun t => t.id) ↔ i ∈ desiredIds docs)) := by
  have hids : ((preSyncTraders docs rf af m).map (syncFlag docs)).map (fun t => t.id) =
      (liveIds m).filter (fun i => (desiredIds docs).contains i || rf i) ++
      (desiredIds docs).filter (fun i => !(liveIds m).contains i && !af i) := by
    rw [List.map_map]
    have hcomp : (preSyncTraders docs rf af m).map ((fun t => t.id) ∘ syncFlag docs) =
        (preSyncTraders docs rf af m).map (fun t => t.id) :=
      List.map_congr_left (fun u _ => syncFlag_id docs u)
    rw [hcomp]
    unfold preSyncTraders
    rw [List.map_append]
    congr 1
    · show (keptTraders docs rf m).map (fun t => t.id) = _
      unfold keptTraders
      rw [show liveIds m = m.traders.map (fun t => t.id) from rfl]
      rw [List.filter_map]
      rfl
    · rw [addedTraders_ids]
      rw [show desiredIds docs = docs.map (fun td => td.traderID) from rfl]
      rw [List.filter_map]
      rfl
  refine ⟨_, _, reload_spec docs m rf af hm hd hgc, ?_, ?_, ?_, ?_⟩
  · show (m.traders.filter (fun t => !keepLive (desiredIds docs) rf t)).length = _
    rw [show liveIds m = m.traders.map (fun t => t.id) from rfl]
    rw [length_filter_map]
    congr 1
    apply List.filter_congr
    intro t _
    unfold keepLive
    rw [Bool.not_or]
  · show (docs.filter (shouldAdd (liveIds m) af)).length = _
    rw [show desiredIds docs = docs.map (fun td => td.traderID) from rfl]
    rw [length_filter_map]
    rfl
  · exact hids
  · intro hrf haf i
    rw [show ((⟨(preSyncTraders docs rf af m).map (syncFlag docs)⟩ :
        TraderManager)).traders = (preSyncTraders docs rf af m).map (syncFlag docs)
      from rfl]
    rw [hids]
    have e1 : (liveIds m).filter (fun i => (desiredIds docs).contains i || rf i) =
        (liveIds m).filter (fun i => (desiredIds docs).contains i) :=
      List.filter_congr (fun x _ => by rw [hrf x, Bool.or_false])
    have e2 : (desiredIds docs).filter (fun i => !(liveIds m).contains i && !af i) =
        (desiredIds docs).filter (fun i => !(liveIds m).contains i) :=
      List.filter_congr (fun x _ => by rw [haf x]; simp)
    rw [e1, e2]
    constructor
    · intro h
      rcases List.mem_append.mp h with h1 | h2
      · exact List.elem_iff.mp (List.mem_filter.mp h1).2
      · exact (List.mem_filter.mp h2).1
    · intro h
      by_cases hl : i ∈ liveIds m
      · exact List.mem_append.mpr (Or.inl
          (List.mem_filter.mpr ⟨hl, List.elem_iff.mpr h⟩))
      · refine List.mem_append.mpr (Or.inr (List.mem_filter.mpr ⟨h, ?_⟩))
        have hcl : (liveIds m).contains i = false := by
          cases hcc : (liveIds m).contains i with
          | false => rfl
          | true => exact absurd (List.elem_iff.mp hcc) hl
        rw [hcl]
        rfl

/-- Witness for C2 at the example scenario with no per-item failures. -/
theorem c2_witness :
    ∃ mFinal counts, handleAdminReload (.ok exampleDocs) exampleMgr noFail noFail =
        some (mFinal, .ok counts) ∧
      counts.removedCount = ((liveIds exampleMgr).filter
        (fun i => !(desiredIds exampleDocs).contains i && !noFail i)).length ∧
      counts.addedCount = ((desiredIds exampleDocs).filter
        (fun i => !(liveIds exampleMgr).contains i && !noFail i)).length ∧
      mFinal.traders.map (fun t => t.id) =
        (liveIds exampleMgr).filter
          (fun i => (desiredIds exampleDocs).contains i || noFail i) ++
        (desiredIds exampleDocs).filter
          (fun i => !(liveIds exampleMgr).contains i && !noFail i) ∧
      ((∀ i, noFail i = false) → (∀ i, noFail i = false) →
        ∀ i, (i ∈ mFinal.traders.map (fun t => t.id) ↔ i ∈ desiredIds exampleDocs)) :=
  c2_set_diff exampleDocs exampleMgr noFail noFail (by decide) (by decide) (by decide)

/-- C4: a member present in both the live and the desired set is never
removed or recreated: after the pass the registry holds exactly one
handle with that identifier, and it is the original handle with all
its configuration fields untouched — only its trading flag is set to
the snapshot value, even when the other configuration fields differ
between the live handle and the desired record. -/
theorem c4_intersection_preserved (docs : List TraderDoc) (m : TraderManager)
    (rf af : String → Bool) (t : Trader)
    (hm : (liveIds m).Nodup) (hd : (desiredIds docs).Nodup)
    (ht : t ∈ m.traders) (htd : t.id ∈ desiredIds docs) :
    ∃ mFinal counts v, handleAdminReload (.ok docs) m rf af = some (mFinal, .ok counts) ∧
      dbEnabledLookup docs t.id = some v ∧
      mFinal.traders.filter (fun u => u.id == t.id) = [{ t with tradingEnabled := v }] := by
  have hgc : ∀ td ∈ docs, (liveIds m).contains td.traderID = false → m.traders ≠ [] :=
    fun _ _ _ => List.ne_nil_of_mem ht
  have hsome : (dbEnabledLookup docs t.id).isSome = true := by
    rw [lookup_isSome_eq_contains]
    exact List.elem_iff.mpr htd
  obtain ⟨v, hv⟩ := Option.isSome_iff_exists.mp hsome
  refine ⟨_, _, v, reload_spec docs m rf af hm hd hgc, hv, ?_⟩
  show ((preSyncTraders docs rf af m).map (syncFlag docs)).filter
      (fun u => u.id == t.id) = _
  rw [List.filter_map]
  have hcongr : (preSyncTraders docs rf af m).filter
      ((fun u => u.id == t.id) ∘ syncFlag docs) =
      (preSyncTraders docs rf af m).filter (fun u => u.id == t.id) :=
    List.filter_congr (fun u _ => by
      show ((syncFlag docs u).id == t.id) = (u.id == t.id)
      rw [syncFlag_id])
  rw [hcongr]
  unfold preSyncTraders
  rw [List.filter_append]
  have haddnil : (addedTraders docs af m).filter (fun u => u.id == t.id) = [] := by
    rw [List.filter_eq_nil_iff]
    intro u hu hbeq
    have hid : u.id = t.id := by simpa using hbeq
    unfold addedTraders at hu
    obtain ⟨td, htd2, rfl⟩ := List.mem_map.mp hu
    have hsa : shouldAdd (liveIds m) af td = true := List.of_mem_filter htd2
    have hcont : (liveIds m).contains td.traderID = false := by
      cases hcc : (liveIds m).contains td.traderID with
      | false => rfl
      | true => unfold shouldAdd at hsa; rw [hcc] at hsa; simp at hsa
    apply not_mem_of_contains_false hcont
    have hmk : (mkStartedTrader td).id = td.traderID := rfl
    rw [hmk] at hid
    rw [hid]
    exact List.mem_map_of_mem _ ht
  rw [haddnil, List.append_nil]
  unfold keptTraders
  rw [List.filter_filter]
  have hsingle : m.traders.filter
      (fun u => (u.id == t.id) && keepLive (desiredIds docs) rf u) = [t] := by
    apply filter_singleton_of_nodup _ m.traders t hm ht
    · have hkt : keepLive (desiredIds docs) rf t = true := by
        unfold keepLive
        have hco : (desiredIds docs).contains t.id = true := List.elem_iff.mpr htd
        rw [hco]
        simp
      simp [hkt]
    · intro u _ hpu
      have : (u.id == t.id) = true := by
        cases hcc : (u.id == t.id) with
        | true => rfl
        | false => rw [hcc] at hpu; simp at hpu
      simpa using this
  rw [hsingle]
  simp [syncFlag, hv]

/-- Witness for C4 at the example scenario: the member B of both sets
keeps its handle and configuration; only its flag becomes the snapshot
value. -/
theorem c4_witness :
    ∃ mFinal counts v, handleAdminReload (.ok exampleDocs) exampleMgr noFail noFail =
        some (mFinal, .ok counts) ∧
      dbEnabledLookup exampleDocs (sampleTrader "B" true).id = some v ∧
      mFinal.traders.filter (fun u => u.id == (sampleTrader "B" true).id) =
        [{ sampleTrader "B" true with tradingEnabled := v }] :=
  c4_intersection_preserved exampleDocs exampleMgr noFail noFail (sampleTrader "B" true)
    (by decide) (by decide) (by decide) (by decide)

end NofxSpec
